import Mathlib

/-!
Verification of the tokendito credential-acquisition pipeline
(`src/tokendito/user.py`) against its natural-language specification.

Python strings are modelled as Lean `String`s (with `String.data` used for
character-level reasoning), Python dicts as insertion-ordered association
lists (`List (key × value)`, updates via `pyDictUpsert` below), and code
that can raise an uncaught Python exception or call `sys.exit` returns
`Except`/sum-like result types making the failure explicit.
-/

/-! ## Shared helpers: Python dict and substring semantics -/

deriving instance DecidableEq for Except

/-- Python dict assignment `d[k] = v`: if the key is present its value is
updated in place (keeping insertion order), otherwise the pair is appended. -/
def pyDictUpsert (d : List (String × String)) (k v : String) : List (String × String) :=
  if d.any (fun p => p.1 = k) then
    d.map (fun p => if p.1 = k then (k, v) else p)
  else
    d ++ [(k, v)]

/-- Scans a character list for an occurrence of `needle` (Python `in` on str). -/
def substrSearch (needle : List Char) : List Char → Bool
  | [] => decide (needle = [])
  | c :: rest => needle.isPrefixOf (c :: rest) || substrSearch needle rest

/-- Python `needle in hay` for strings. -/
def pyIn (needle hay : String) : Bool := substrSearch needle.data hay.data

/-- Python `s.startswith(pre)`. -/
def pyStartswith (s pre : String) : Bool := pre.data.isPrefixOf s.data

/-- Python `s.split(sep)` on character lists, for a nonempty separator:
greedy leftmost, adjacent separators yield empty fields.  `fuel` bounds the
recursion; one character is consumed per step, so `fuel = l.length` always
suffices. -/
def splitGo (sep : List Char) : Nat → List Char → List (List Char)
  | _, [] => [[]]
  | 0, l => [l]
  | fuel + 1, c :: rest =>
    if sep.isPrefixOf (c :: rest) then
      [] :: splitGo sep fuel ((c :: rest).drop sep.length)
    else
      match splitGo sep fuel rest with
      | [] => [[c]]
      | f :: fs => (c :: f) :: fs

/-- Python `s.split(sep)` for a nonempty separator string. -/
def pySplit (s sep : String) : List String :=
  (splitGo sep.data s.data.length s.data).map String.mk

/-! ## Secret redaction (user.py lines 40-56 and 642-647)

`mask_items` is the process-wide redaction registry; the logging filter
rewrites `record.msg` by replacing each registered secret with `"*****"`,
one `str.replace` per secret, in registration order, and lets the record
pass (returns `True`). -/

/-- The fixed sensitive-key set of `add_sensitive_value_to_be_masked`. -/
def sensitive_keys : List String := ["password", "mfa_response", "sessionToken"]

/-- `add_sensitive_value_to_be_masked(value, key=None)`: appends `value` to the
`mask_items` registry when no key is given or the key is sensitive.  The
registry is threaded explicitly as `items`. -/
def add_sensitive_value_to_be_masked (value : String) (key : Option String)
    (items : List String) : List String :=
  match key with
  | none => items ++ [value]
  | some k => if k ∈ sensitive_keys then items ++ [value] else items

/-- Python `m.replace(p, mask)` for the empty pattern `p = ""`: the
replacement is inserted before every character and at the end. -/
def pyReplaceEmptyPat (mask : List Char) : List Char → List Char
  | [] => mask
  | c :: rest => mask ++ c :: pyReplaceEmptyPat mask rest

/-- Python `m.replace(p, mask)` for a nonempty pattern: leftmost,
non-overlapping.  `fuel` bounds the recursion; one character of `m` is
consumed per step, so `fuel = m.length` is always enough (the fuel-exhausted
branch is never reached for a nonempty pattern). -/
def replGo (p mask : List Char) : Nat → List Char → List Char
  | _, [] => []
  | 0, l => l
  | fuel + 1, c :: rest =>
    if p.isPrefixOf (c :: rest) then
      mask ++ replGo p mask fuel ((c :: rest).drop p.length)
    else
      c :: replGo p mask fuel rest

/-- Python `m.replace(p, mask)` on character lists. -/
def pyReplaceL (m p mask : List Char) : List Char :=
  if p = [] then pyReplaceEmptyPat mask m else replGo p mask m.length m

/-- Python `m.replace(p, mask)` on strings. -/
def pyReplace (m p mask : String) : String := String.mk (pyReplaceL m.data p.data mask.data)

/-- The fixed mask written over secrets in log messages. -/
def maskString : String := "*****"

/-- The message-rewriting loop of `MaskLoggerSecret.filter`:
`for secret in mask_items: record.msg = record.msg.replace(secret, "*****")`. -/
def maskFilterMsg (items : List String) (msg : String) : String :=
  items.foldl (fun m s => pyReplace m s maskString) msg

/-- `MaskLoggerSecret.filter(record)`: rewrites the record message and returns
`True` (the record always passes the filter). -/
def MaskLoggerSecret_filter (items : List String) (msg : String) : String × Bool :=
  (maskFilterMsg items msg, true)

/-! ## Ini-file persistence (user.py lines 977-1011)

`update_ini` reads the target file with `configparser.RawConfigParser`, adds
the addressed section if missing, sets the supplied key/value pairs, and
writes the whole file back.  A parsed ini file is modelled as its section
list (`configparser._sections`): insertion-ordered sections, each an
insertion-ordered option list.  Option names go through configparser's
`optionxform` (lower-casing) on `set` and on every lookup.  `add_section`
raises `ValueError` on the default section name, which `update_ini` does not
catch; that crash is the `.error` case. -/

/-- One ini section: insertion-ordered option/value pairs. -/
abbrev IniSection := List (String × String)

/-- A parsed ini file: insertion-ordered named sections (the default section
is not part of this list, mirroring `configparser._sections`). -/
abbrev Ini := List (String × IniSection)

/-- Python `s.lower()` (character-wise lower-casing). -/
def pyLower (s : String) : String := String.mk (s.data.map Char.toLower)

/-- configparser's default `optionxform`: option names are lower-cased. -/
def optionxform (s : String) : String := pyLower s

/-- `RawConfigParser.has_section` (always `False` for the default section). -/
def ini_has_section (ini : Ini) (sec : String) : Bool := ini.any (fun s => s.1 = sec)

/-- `RawConfigParser.set(sec, key, value)`: upserts the transformed option
name into the named section (a no-op if the section does not exist). -/
def ini_set_option (ini : Ini) (sec key value : String) : Ini :=
  ini.map (fun s => if s.1 = sec then (s.1, pyDictUpsert s.2 (optionxform key) value) else s)

/-- The options of a named section of the parsed/written file, if present. -/
def get_section (ini : Ini) (sec : String) : Option IniSection :=
  (ini.find? (fun s => s.1 = sec)).map (fun s => s.2)

/-- `RawConfigParser.get(sec, key)` restricted to the section's own options
(no default-section fallback): lookup of the transformed option name. -/
def ini_get (ini : Ini) (sec key : String) : Option String :=
  (get_section ini sec).bind (fun opts => opts.lookup (optionxform key))

/-- `update_ini(profile, ini_file, **kwargs)` on the parsed content: ensure
the section exists (`add_section` raises `ValueError` — modelled as
`.error` — when the profile names the default section, since `has_section`
is `False` for it), then set every supplied pair.  The returned `Ini` is
what `ini.write` serializes back to the file. -/
def update_ini (profile : String) (ini : Ini) (kwargs : List (String × String)) :
    Except Unit Ini :=
  if profile = "DEFAULT" then .error ()
  else
    let ini1 := if ini_has_section ini profile then ini else ini ++ [(profile, [])]
    .ok (kwargs.foldl (fun i kv => ini_set_option i profile kv.1 kv.2) ini1)

/-! ## Role selection (user.py lines 310-347 and 429-472)

`select_role_arn(authenticated_aps)` iterates the authenticated-apps dict in
insertion order (modelled as a list of `(url, roles)` pairs).  For each app it
builds `role_names` (trailing path segment → role, later roles overwriting),
exits with status 2 if the configured profile alias matches more than one of
that app's trailing names, selects the alias match or else the configured
role ARN if present among that app's roles, and breaks on the first
selection.  If the loop ends without a selection it prompts interactively
when no role ARN is configured and exits with status 2 otherwise. -/

/-- The relevant part of `config.aws`: the profile alias and the configured
role ARN (each `None` when unset). -/
structure AwsCfg where
  profile : Option String
  role_arn : Option String
deriving DecidableEq

/-- Outcome of `select_role_arn`: a selected `(role, url)` pair, entry into
interactive selection (`prompt_role_choices`), or `sys.exit(code)`. -/
inductive RoleSelection where
  | selected (role url : String)
  | interactive
  | exit (code : Nat)
deriving DecidableEq

/-- `role.split("/")[-1]`: the trailing path segment of a role ARN
(`split` always returns at least one field, so the default is unreachable). -/
def role_name (role : String) : String := (pySplit role "/").getLastD ""

/-- `dict((role.split("/")[-1], role) for role in roles)`: trailing name →
role, later roles overwriting earlier ones. -/
def role_names_table (roles : List String) : List (String × String) :=
  roles.foldl (fun d r => pyDictUpsert d (role_name r) r) []

/-- `roles.count(config.aws["profile"])` over the trailing names
(`None` matches nothing). -/
def profile_matches (profile : Option String) (roles : List String) : Nat :=
  match profile with
  | none => 0
  | some p => (roles.map role_name).count p

/-- The `for url, app in authenticated_aps.items()` loop of
`select_role_arn`: `.error 2` is the in-loop `sys.exit(2)` on an ambiguous
alias, `.ok (some _)` a selection followed by `break`, `.ok none` loop
completion without a selection. -/
def select_role_loop (cfg : AwsCfg) : List (String × List String) →
    Except Nat (Option (String × String))
  | [] => .ok none
  | (url, roles) :: rest =>
    if 1 < profile_matches cfg.profile roles then .error 2
    else
      match cfg.profile.bind (fun p => (role_names_table roles).lookup p) with
      | some r => .ok (some (r, url))
      | none =>
        match cfg.role_arn with
        | some a => if a ∈ roles then .ok (some (a, url)) else select_role_loop cfg rest
        | none => select_role_loop cfg rest

/-- `select_role_arn(authenticated_aps)`. -/
def select_role_arn (cfg : AwsCfg) (aps : List (String × List String)) : RoleSelection :=
  match select_role_loop cfg aps with
  | .error c => .exit c
  | .ok (some (r, u)) => .selected r u
  | .ok none =>
    match cfg.role_arn with
    | none => .interactive
    | some _ => .exit 2

/-- Modelled from the amended claim: role selection scans candidate sources
in iteration order; at each source it fails with exit status 2 when the
alias matches more than one of that source's trailing role names, else
selects the alias match (the last role with that trailing name), else
selects the configured role ARN when it is among that source's roles; when
no source yields a selection, a configured role ARN exits with status 2 and
no configured role ARN enters interactive selection. -/
def select_role_spec (cfg : AwsCfg) : List (String × List String) → RoleSelection
  | [] =>
    match cfg.role_arn with
    | none => .interactive
    | some _ => .exit 2
  | (url, roles) :: rest =>
    if 1 < profile_matches cfg.profile roles then .exit 2
    else
      match cfg.profile.bind (fun p => (role_names_table roles).lookup p) with
      | some r => .selected r url
      | none =>
        match cfg.role_arn with
        | some a => if a ∈ roles then .selected a url else select_role_spec cfg rest
        | none => select_role_spec cfg rest

/-! ## MFA option description (user.py lines 350-393)

`factor_type_info` reads `mfa_option.get("profile").get(<field>)` for the
profile-based factor types: when the `profile` key is absent, `.get` on
`None` raises `AttributeError` (modelled as `.error ()`).  `mfa_option_info`
replaces a falsy result (`None` or the empty string) with the sentinel
`"Not Presented"`. -/

/-- The `profile` sub-object of an MFA option; each field is `.get`-style
optional. -/
structure MfaProfile where
  credentialId : Option String
  name : Option String
  phoneNumber : Option String
  authenticatorName : Option String
  question : Option String
  email : Option String
deriving DecidableEq

/-- One MFA option dictionary, restricted to the keys the description code
reads. -/
structure MfaOption where
  factorType : Option String
  profile : Option MfaProfile
  vendorName : Option String
deriving DecidableEq

/-- Reads `opt.get("profile").get(field)`: `AttributeError` when `profile`
is absent. -/
def profile_field (opt : MfaOption) (field : MfaProfile → Option String) :
    Except Unit (Option String) :=
  match opt.profile with
  | none => .error ()
  | some p => .ok (field p)

/-- `factor_type_info(factor_type, mfa_option)`; the initial value of
`factor_info` is the string `"Not Presented"`, kept when no branch matches. -/
def factor_type_info (factor_type : String) (mfa_option : MfaOption) :
    Except Unit (Option String) :=
  if factor_type ∈ ["token", "token:software:totp", "token:hardware"] then
    profile_field mfa_option (fun p => p.credentialId)
  else if factor_type = "push" then
    profile_field mfa_option (fun p => p.name)
  else if factor_type = "sms" ∨ factor_type = "call" then
    profile_field mfa_option (fun p => p.phoneNumber)
  else if factor_type = "webauthn" then
    profile_field mfa_option (fun p => p.authenticatorName)
  else if factor_type ∈ ["web", "u2f", "token:hotp"] then
    .ok mfa_option.vendorName
  else if factor_type = "question" then
    profile_field mfa_option (fun p => p.question)
  else if factor_type = "email" then
    profile_field mfa_option (fun p => p.email)
  else
    .ok (some "Not Presented")

/-- `mfa_option_info(mfa_option)`: describe the option, replacing a falsy
field value with the sentinel. -/
def mfa_option_info (mfa_option : MfaOption) : Except Unit String :=
  match mfa_option.factorType with
  | none => .ok "Not Presented"
  | some ft =>
    match factor_type_info ft mfa_option with
    | .error e => .error e
    | .ok fi =>
      .ok (match fi with
        | none => "Not Presented"
        | some s => if s = "" then "Not Presented" else s)

/-- The factor types whose description reads the `profile` sub-object. -/
def profile_based_types : List String :=
  ["token", "token:software:totp", "token:hardware", "push", "sms", "call",
    "webauthn", "question", "email"]

/-- Whether describing this option dereferences the `profile` sub-object. -/
def needs_profile (opt : MfaOption) : Bool :=
  match opt.factorType with
  | none => false
  | some ft => ft ∈ profile_based_types

/-- Modelled from the claim's field table: the field the spec says each
sub-type is described by (credential id for token types, display name for
push, phone number for sms/call, authenticator name for webauthn, vendor
name for web/u2f/hotp, question text for question, email for email);
`none` for an unrecognized sub-type or a missing field or profile. -/
def expected_field (opt : MfaOption) : Option String :=
  match opt.factorType with
  | none => none
  | some ft =>
    if ft ∈ ["token", "token:software:totp", "token:hardware"] then
      opt.profile.bind (fun p => p.credentialId)
    else if ft = "push" then
      opt.profile.bind (fun p => p.name)
    else if ft = "sms" ∨ ft = "call" then
      opt.profile.bind (fun p => p.phoneNumber)
    else if ft = "webauthn" then
      opt.profile.bind (fun p => p.authenticatorName)
    else if ft ∈ ["web", "u2f", "token:hotp"] then
      opt.vendorName
    else if ft = "question" then
      opt.profile.bind (fun p => p.question)
    else if ft = "email" then
      opt.profile.bind (fun p => p.email)
    else
      none

/-- Modelled from the claim: the display string the spec promises — the
sub-type-specific field when present and non-empty, the fixed sentinel
otherwise. -/
def describeOptionSpec (opt : MfaOption) : String :=
  match expected_field opt with
  | none => "Not Presented"
  | some s => if s = "" then "Not Presented" else s

/-! ## SAML response validation (user.py lines 530-546)

`validate_saml_response(html)` iterates every `<input name="SAMLResponse">`
element of the parsed markup in document order, re-assigning `xml` to the
base64+UTF-8 decode of each element's `value` attribute, and exits with
status 1 when no element was found.  The HTML parse is abstracted to the
list of the matching elements' optional `value` attributes (in document
order), and the `codecs` base64 → UTF-8 decoding — an external library
call — to an abstract `decode` function.  An element without a `value`
attribute makes `saml_base64.encode("ascii")` raise `AttributeError` on
`None`. -/

/-- Outcome of `validate_saml_response`: the decoded assertion, `sys.exit`
with a status code, or an uncaught Python exception. -/
inductive SamlResult where
  | ok (xml : String)
  | exit (code : Nat)
  | pyError
deriving DecidableEq

/-- The `for elem in soup.find_all(...)` loop: crashes at the first element
without a `value`, otherwise keeps the decode of the last value. -/
def scan_saml_fields (decode : String → String) :
    List (Option String) → Except Unit (Option String)
  | [] => .ok none
  | f :: rest =>
    match f with
    | none => .error ()
    | some v =>
      match scan_saml_fields decode rest with
      | .error e => .error e
      | .ok none => .ok (some (decode v))
      | .ok (some x) => .ok (some x)

/-- `validate_saml_response(html)` on the extracted field list. -/
def validate_saml_response (decode : String → String)
    (fields : List (Option String)) : SamlResult :=
  match scan_saml_fields decode fields with
  | .error _ => .pyError
  | .ok none => .exit 1
  | .ok (some xml) => .ok xml

/-! ## Account alias lookup and interactive rows (user.py lines 594-624, 429-446)

`get_account_aliases` posts the assertion to the form target of the SAML
relay page (the network exchange is abstracted away: the function here
processes the response body it produced) and returns `None` when the body
lacks the `"Account: "` marker; otherwise it builds the alias table from the
text nodes matching `Account:` (the `soup.find_all(text=...)` extraction is
abstracted to the `text_nodes` list).  `prompt_role_choices` then builds one
row per role, using the alias table when it is truthy (non-`None` and
non-empty) and the raw account id — `role.split(":")[4]` — otherwise. -/

/-- Python `s.strip("()")`: removes leading and trailing `(`/`)` characters. -/
def strip_parens (s : String) : String :=
  String.mk ((((s.data.dropWhile (fun c => c = '(' ∨ c = ')')).reverse.dropWhile
    (fun c => c = '(' ∨ c = ')')).reverse))

/-- One entry of the alias-table comprehension:
`str(i.split(" ")[-1]).strip("()")` is the key and `i.split(" ")[1]` the
value; a node with fewer than two space-separated fields raises
`IndexError`. -/
def parse_alias_node (node : String) : Except Unit (String × String) :=
  let fields := pySplit node " "
  match fields[1]? with
  | none => .error ()
  | some second => .ok (strip_parens (fields.getLastD ""), second)

/-- `get_account_aliases(saml_xml, saml_response_string)` applied to the
response body of the alias-lookup post: `None` when the marker is absent,
otherwise the account-id → alias dict built from the matching text nodes. -/
def get_account_aliases (response_text : String) (text_nodes : List String) :
    Except Unit (Option (List (String × String))) := do
  if pyIn "Account: " response_text = false then
    return none
  else
    let pairs ← text_nodes.mapM parse_alias_node
    return some (pairs.foldl (fun d kv => pyDictUpsert d kv.1 kv.2) [])

/-- One authenticated app as consumed by `prompt_role_choices`: its label,
roles, and the alias-lookup response for it (body and matching text nodes). -/
structure OktaApp where
  label : String
  roles : List String
  alias_response_text : String
  alias_text_nodes : List String
deriving DecidableEq

/-- `role.split(":")[4]`: the account id embedded in a role ARN; `none` is
the `IndexError` case. -/
def role_account_id (role : String) : Option String := (pySplit role ":")[4]?

/-- The per-app inner loop of `prompt_role_choices`: one
`(label, alias-or-account-id, role, url)` row per role.  The alias table is
used when truthy (non-`None`, non-empty); `alias_table[...]` raises
`KeyError` (modelled `.error`) on a missing account id. -/
def app_alias_rows (url : String) (app : OktaApp)
    (tbl : Option (List (String × String))) :
    Except Unit (List (String × String × String × String)) :=
  app.roles.mapM (fun role =>
    match role_account_id role with
    | none => .error ()
    | some acct =>
      match tbl with
      | some t =>
        if t = [] then .ok (app.label, acct, role, url)
        else
          match t.lookup acct with
          | none => .error ()
          | some al => .ok (app.label, al, role, url)
      | none => .ok (app.label, acct, role, url))

/-- The row-building phase of `prompt_role_choices(aut_aps)` (the part before
sorting, display and the integer prompt). -/
def prompt_role_choices_rows (apps : List (String × OktaApp)) :
    Except Unit (List (String × String × String × String)) := do
  let rowss ← apps.mapM (fun p => do
    let tbl ← get_account_aliases p.2.alias_response_text p.2.alias_text_nodes
    app_alias_rows p.1 p.2 tbl)
  return rowss.flatten

/-! ## URL handling and configuration sanitization (user.py lines 549-591,
819-828, 1070-1118)

`urllib.parse.urlparse` is embedded for the cases the code exercises: an
optional scheme (letter followed by letters/digits/`+-.`, before the first
`:`), a `//`-introduced netloc up to the first `/`, `?` or `#`, a fragment
split at the first `#`, a query split at the first `?` (after the fragment
split, as in CPython), and params split from the path's last segment at
`;`. -/

/-- Splits a character list at the first occurrence of `t` (the separator is
dropped); `none` when `t` does not occur. -/
def breakAtChar (t : Char) : List Char → Option (List Char × List Char)
  | [] => none
  | c :: rest =>
    if c = t then some ([], rest)
    else (breakAtChar t rest).map (fun p => (c :: p.1, p.2))

/-- The characters allowed in a URL scheme after the leading letter. -/
def isSchemeChar (c : Char) : Bool := c.isAlpha || c.isDigit || c = '+' || c = '-' || c = '.'

/-- The scheme step of `urlsplit`: a valid scheme before the first `:` is
split off and lower-cased, otherwise the URL is left whole. -/
def splitScheme (l : List Char) : List Char × List Char :=
  match breakAtChar ':' l with
  | none => ([], l)
  | some (pre, post) =>
    if !pre.isEmpty && (pre.headD ' ').isAlpha && pre.all isSchemeChar then
      (pre.map Char.toLower, post)
    else ([], l)

/-- A character that does not end the netloc. -/
def notNetlocEnd (c : Char) : Bool := ¬(c = '/' ∨ c = '?' ∨ c = '#')

/-- The netloc step of `urlsplit`: after a leading `//`, up to the first
`/`, `?` or `#`. -/
def splitNetloc : List Char → List Char × List Char
  | '/' :: '/' :: rest => (rest.takeWhile notNetlocEnd, rest.dropWhile notNetlocEnd)
  | l => ([], l)

/-- Splits at the first occurrence of `t`, keeping everything when absent. -/
def splitAtCharFirst (t : Char) (l : List Char) : List Char × List Char :=
  match breakAtChar t l with
  | none => (l, [])
  | some p => p

/-- Splits `path` at the last `/`: `path = pre ++ '/' :: post` with `post`
slash-free. -/
def lastSlashSplit : List Char → Option (List Char × List Char)
  | [] => none
  | c :: rest =>
    match lastSlashSplit rest with
    | some (pre, post) => some (c :: pre, post)
    | none => if c = '/' then some ([], rest) else none

/-- `urlparse`'s `_splitparams`: params are split at the first `;` at or
after the last `/` (or anywhere when the path has no `/`). -/
def splitParams (path : List Char) : List Char × List Char :=
  match lastSlashSplit path with
  | some (pre, post) =>
    match breakAtChar ';' post with
    | some (a, b) => (pre ++ '/' :: a, b)
    | none => (path, [])
  | none =>
    match breakAtChar ';' path with
    | some (a, b) => (a, b)
    | none => (path, [])

/-- The six components of `urllib.parse.urlparse`. -/
structure UrlParts where
  scheme : String
  netloc : String
  path : String
  params : String
  query : String
  fragment : String
deriving DecidableEq

/-- `urllib.parse.urlparse(s)`. -/
def pyUrlparse (s : String) : UrlParts :=
  let p1 := splitScheme s.data
  let p2 := splitNetloc p1.2
  let p3 := splitAtCharFirst '#' p2.2
  let p4 := splitAtCharFirst '?' p3.1
  let p5 := splitParams p4.1
  { scheme := String.mk p1.1, netloc := String.mk p2.1, path := String.mk p5.1,
    params := String.mk p5.2, query := String.mk p4.2, fragment := String.mk p3.2 }

/-- `get_base_url(urlstring)`: `f"{url.scheme}://{url.netloc}"`. -/
def get_base_url (urlstring : String) : String :=
  let url := pyUrlparse urlstring
  url.scheme ++ "://" ++ url.netloc

/-- `validate_okta_org_url(input_url)`. -/
def validate_okta_org_url (input_url : String) : Bool :=
  let url := pyUrlparse input_url
  url.scheme = "https" ∧ (url.path = "" ∨ url.path = "/") ∧ url.params = "" ∧
    url.query = "" ∧ url.fragment = ""

/-- A `\w` regex character (ASCII approximation). -/
def isWordChar (c : Char) : Bool := c.isAlpha || c.isDigit || c = '_'

/-- `re.match(r"^/home/amazon_aws/\w{20}/\d{3}$", path)` as a Boolean check
(`$` also matches just before one trailing newline). -/
def appPathMatch (l : List Char) : Bool :=
  ("/home/amazon_aws/").data.isPrefixOf l &&
  (let r := l.drop 17
   decide ((r.take 20).length = 20) && (r.take 20).all isWordChar &&
   (match r.drop 20 with
    | '/' :: d1 :: d2 :: d3 :: rest =>
      d1.isDigit && d2.isDigit && d3.isDigit && decide (rest = [] ∨ rest = ['\n'])
    | _ => false))

/-- `validate_okta_app_url(input_url)`. -/
def validate_okta_app_url (input_url : String) : Bool :=
  let url := pyUrlparse input_url
  url.scheme = "https" && appPathMatch url.path.data

/-- The configuration fields read by validation and sanitization; a missing
value is `none`, and Python truthiness also treats `""` as unset. -/
structure TdConfig where
  okta_org : Option String
  okta_app_url : Option String
  okta_username : Option String
  okta_password : Option String
  aws_output : Option String
  aws_region : Option String
deriving DecidableEq

/-- Python truthiness of an optional string. -/
def truthy (o : Option String) : Bool :=
  match o with
  | none => false
  | some s => s ≠ ""

/-- `sanitize_config_values(config)`.  The allow-lists and defaults stand for
`aws.get_output_types()`, `aws.get_regions()` and `config.get_defaults()`,
modelled from the spec ("Output type and region are validated against
enumerated allow-lists; invalid values are silently reset to defaults") since
the `aws` module is not part of the sources under verification. -/
def sanitize_config_values (output_types regions : List String)
    (default_output default_region : String) (c : TdConfig) : TdConfig :=
  let c1 :=
    if truthy c.okta_app_url then
      { c with okta_org := some (get_base_url (c.okta_app_url.getD "")) }
    else c
  let c2 :=
    if (match c1.aws_output with | some s => decide (s ∈ output_types) | none => false) then c1
    else { c1 with aws_output := some default_output }
  if (match c2.aws_region with | some s => decide (s ∈ regions) | none => false) then c2
  else { c2 with aws_region := some default_region }

/-- The messages `validate_configuration` can append, in structured form;
each constructor stands for the exact message string of the source, carrying
the interpolated values. -/
inductive ValidationMsg where
  | usernameNotSet
  | passwordNotSet
  | noUrl
  | badAppUrl (url : String)
  | badOrgUrl (url : String)
  | originMismatch (org appUrl : String)
deriving DecidableEq

/-- `validate_configuration(config)`: the list of validation messages. -/
def validate_configuration (c : TdConfig) : List ValidationMsg :=
  (if truthy c.okta_username = false then [ValidationMsg.usernameNotSet] else []) ++
  (if truthy c.okta_password = false then [ValidationMsg.passwordNotSet] else []) ++
  (if truthy c.okta_org = false ∧ truthy c.okta_app_url = false then
    [ValidationMsg.noUrl] else []) ++
  (if truthy c.okta_app_url = true ∧
      validate_okta_app_url (c.okta_app_url.getD "") = false then
    [ValidationMsg.badAppUrl (c.okta_app_url.getD "")] else []) ++
  (if truthy c.okta_org = true ∧ validate_okta_org_url (c.okta_org.getD "") = false then
    [ValidationMsg.badOrgUrl (c.okta_org.getD "")] else []) ++
  (if truthy c.okta_org = true ∧ truthy c.okta_app_url = true ∧
      pyStartswith (c.okta_app_url.getD "") (c.okta_org.getD "") = false then
    [ValidationMsg.originMismatch (c.okta_org.getD "") (c.okta_app_url.getD "")] else [])

/-! ## ARN extraction (user.py lines 504-527)

`extract_arns` runs `re.findall(">(arn:aws:iam::.*?,arn:aws:iam::.*?)<", saml)`
and builds `{i.split(",")[1]: i.split(",")[0] for i in arns}`.  The regex is
embedded concretely with Python semantics: `findall` scans left to right,
non-overlapping, resuming after each match; each `.*?` is lazy (shortest
first, with backtracking) and `.` matches any character except a newline.
Every matched group contains the literal `,arn:aws:iam::`, so it has at
least two comma-separated fields and the dict comprehension's index
accesses cannot raise. -/

/-- The literal `arn:aws:iam::` after `>`. -/
def arnLit1 : List Char := ("arn:aws:iam::").data

/-- The literal `,arn:aws:iam::` between the two lazy groups. -/
def arnLit2 : List Char := (",arn:aws:iam::").data

/-- The second `.*?` followed by `<`: the shortest newline-free consumed
prefix before a `<`; returns `(consumed, rest-after-<)`. -/
def arnLazyClose : List Char → Option (List Char × List Char)
  | [] => none
  | c :: rest =>
    if c = '<' then some ([], rest)
    else if c = '\n' then none
    else
      match arnLazyClose rest with
      | some (a, b) => some (c :: a, b)
      | none => none

/-- The first `.*?` up to `,arn:aws:iam::` followed by a successful close:
lazy with backtracking — at each position, first try to match the literal
and complete, otherwise consume one (non-newline) character.  Returns
`(part1, part2, rest-after-match)`. -/
def arnLazyMiddle : List Char → Option (List Char × List Char × List Char)
  | [] => none
  | c :: rest =>
    match (if arnLit2.isPrefixOf (c :: rest) then
        arnLazyClose ((c :: rest).drop arnLit2.length) else none) with
    | some (p2, after) => some ([], p2, after)
    | none =>
      if c = '\n' then none
      else
        match arnLazyMiddle rest with
        | some (p1, p2, after) => some (c :: p1, p2, after)
        | none => none

/-- One attempted match of the whole pattern at the current position:
`>` then `arn:aws:iam::` then the lazy middle and close; returns the
captured group and the rest after the match. -/
def arnMatchAt : List Char → Option (List Char × List Char)
  | [] => none
  | c :: rest =>
    if c = '>' && arnLit1.isPrefixOf rest then
      match arnLazyMiddle (rest.drop arnLit1.length) with
      | some (p1, p2, after) => some (arnLit1 ++ p1 ++ arnLit2 ++ p2, after)
      | none => none
    else none

/-- The `re.findall` scan: try a match at each position, resuming after each
match.  Every match consumes at least one character, so `fuel = l.length`
always suffices. -/
def findArnsGo : Nat → List Char → List (List Char)
  | 0, _ => []
  | _, [] => []
  | fuel + 1, c :: rest =>
    match arnMatchAt (c :: rest) with
    | some (g, after) => g :: findArnsGo fuel after
    | none => findArnsGo fuel rest

/-- `re.findall(arn_regex, saml)`: the list of captured groups. -/
def findall_arns (saml : String) : List String :=
  (findArnsGo saml.data.length saml.data).map String.mk

/-- `extract_arns(saml)`: exits with status 2 when no pair is found,
otherwise the role-ARN → provider-ARN dict (`i.split(",")[1]` is the key and
`i.split(",")[0]` the value; both fields exist for every match). -/
def extract_arns (saml : String) : Except Nat (List (String × String)) :=
  let arns := findall_arns saml
  if arns = [] then .error 2
  else
    .ok (arns.foldl (fun d i =>
      pyDictUpsert d ((pySplit i ",").getD 1 "") ((pySplit i ",").getD 0 "")) [])

/-! ## Theorems -/

/-! ### Secret redaction lemmas -/

theorem star_strip {q X : List Char} (s : List Char) (hs : ∀ c ∈ s, c = '*')
    (hq : '*' ∉ q) (hqne : q ≠ []) (h : q <:+: s ++ X) : q <:+: X := by
  induction s with
  | nil => simpa using h
  | cons c s ih =>
    have hc : c = '*' := hs c (by simp)
    rw [List.cons_append, List.infix_cons_iff] at h
    rcases h with h | h
    · obtain ⟨t, ht⟩ := h
      cases q with
      | nil => exact absurd rfl hqne
      | cons d q' =>
        simp only [List.cons_append, List.cons.injEq] at ht
        subst hc
        exact absurd (ht.1 ▸ List.mem_cons_self d q') hq
    · exact ih (fun c hc => hs c (by simp [hc])) h

theorem mask_all_star : ∀ c ∈ maskString.data, c = '*' := by decide

theorem mask_ne_nil : maskString.data ≠ [] := by decide

theorem prefix_mask_append {q X : List Char} (hq : '*' ∉ q) (hqne : q ≠ [])
    (h : q <+: maskString.data ++ X) : False := by
  cases q with
  | nil => exact hqne rfl
  | cons d q' =>
    obtain ⟨t, ht⟩ := h
    have : d = '*' := by
      have := congrArg (List.head? ·) ht
      simpa [maskString] using this
    exact hq (this ▸ List.mem_cons_self d q')

theorem replGo_prefix_transfer {p : List Char} :
    ∀ (fuel : Nat) (m q : List Char), '*' ∉ q → q ≠ [] →
      q <+: replGo p maskString.data fuel m → q <+: m := by
  intro fuel
  induction fuel with
  | zero =>
    intro m q hq hqne h
    cases m with
    | nil => simpa [replGo] using h
    | cons c rest => simpa [replGo] using h
  | succ fuel ih =>
    intro m q hq hqne h
    cases m with
    | nil => simpa [replGo] using h
    | cons c rest =>
      rw [replGo] at h
      split at h
      · exact absurd h (fun h => prefix_mask_append hq hqne h)
      · cases q with
        | nil => exact absurd rfl hqne
        | cons d q' =>
          obtain ⟨t, ht⟩ := h
          simp only [List.cons_append, List.cons.injEq] at ht
          rcases ht with ⟨rfl, ht⟩
          cases q' with
          | nil => exact ⟨rest, rfl⟩
          | cons e q'' =>
            have hpre : (e :: q'') <+: replGo p maskString.data fuel rest := ⟨t, ht⟩
            have hq' : '*' ∉ (e :: q'') := fun h => hq (List.mem_cons_of_mem _ h)
            obtain ⟨u, hu⟩ := ih rest (e :: q'') hq' (by simp) hpre
            exact ⟨u, by simp [hu]⟩


theorem replGo_infix_transfer {p q : List Char} (hq : '*' ∉ q) (hqne : q ≠ []) :
    ∀ (fuel : Nat) (m : List Char),
      q <:+: replGo p maskString.data fuel m → q <:+: m := by
  intro fuel
  induction fuel with
  | zero =>
    intro m h
    cases m with
    | nil => simpa [replGo] using h
    | cons c rest => simpa [replGo] using h
  | succ fuel ih =>
    intro m h
    cases m with
    | nil => simpa [replGo] using h
    | cons c rest =>
      rw [replGo] at h
      split at h
      · have h' := star_strip maskString.data mask_all_star hq hqne h
        have h'' := ih _ h'
        calc q <:+: (c :: rest).drop p.length := h''
          _ <:+: c :: rest := (List.drop_suffix _ _).isInfix
      · rw [List.infix_cons_iff] at h
        rcases h with h | h
        · have hpre : q <+: replGo p maskString.data (fuel + 1) (c :: rest) := by
            rw [replGo]
            simp only [if_neg (by assumption)]
            exact h
          exact (replGo_prefix_transfer (fuel + 1) (c :: rest) q hq hqne hpre).isInfix
        · exact (ih rest h).trans (List.suffix_cons c rest).isInfix

theorem replGo_kill {p : List Char} (hp : '*' ∉ p) (hpne : p ≠ []) :
    ∀ (fuel : Nat) (m : List Char), m.length ≤ fuel →
      ¬ p <:+: replGo p maskString.data fuel m := by
  intro fuel
  induction fuel with
  | zero =>
    intro m hlen h
    have : m = [] := List.length_eq_zero.mp (Nat.le_zero.mp hlen)
    subst this
    exact hpne (by simpa [replGo] using h)
  | succ fuel ih =>
    intro m hlen h
    cases m with
    | nil => exact hpne (by simpa [replGo] using h)
    | cons c rest =>
      rw [replGo] at h
      by_cases hpref : p.isPrefixOf (c :: rest)
      · rw [if_pos hpref] at h
        have h' := star_strip maskString.data mask_all_star hp hpne h
        have hlen' : ((c :: rest).drop p.length).length ≤ fuel := by
          have hp1 : 1 ≤ p.length := by
            cases p with
            | nil => exact absurd rfl hpne
            | cons _ _ => simp
          simp only [List.length_cons] at hlen
          simp only [List.length_drop, List.length_cons]
          omega
        exact ih _ hlen' h'
      · rw [if_neg hpref] at h
        rw [List.infix_cons_iff] at h
        rcases h with h | h
        · have hpre : p <+: replGo p maskString.data (fuel + 1) (c :: rest) := by
            rw [replGo]
            simp only [if_neg hpref]
            exact h
          have := replGo_prefix_transfer (fuel + 1) (c :: rest) p hp hpne hpre
          exact hpref (List.isPrefixOf_iff_prefix.mpr this)
        · exact ih rest (by simpa using Nat.le_of_succ_le_succ hlen) h

theorem emptyPat_infix_transfer {q : List Char} (hq : '*' ∉ q) (hqne : q ≠ []) :
    ∀ (m : List Char), q <:+: pyReplaceEmptyPat maskString.data m → q <:+: m := by
  intro m
  induction m with
  | nil =>
    intro h
    rw [pyReplaceEmptyPat] at h
    have : q <:+: ([] : List Char) := by
      have := star_strip maskString.data mask_all_star hq hqne (by simpa using h)
      simpa using this
    simpa using this
  | cons c rest ih =>
    intro h
    rw [pyReplaceEmptyPat] at h
    have h' : q <:+: c :: pyReplaceEmptyPat maskString.data rest :=
      star_strip maskString.data mask_all_star hq hqne h
    rw [List.infix_cons_iff] at h'
    rcases h' with h' | h'
    · cases q with
      | nil => exact absurd rfl hqne
      | cons d q' =>
        obtain ⟨t, ht⟩ := h'
        simp only [List.cons_append, List.cons.injEq] at ht
        rcases ht with ⟨rfl, ht⟩
        cases q' with
        | nil => exact ⟨[], rest, rfl⟩
        | cons e q'' =>
          exfalso
          have hhead : (pyReplaceEmptyPat maskString.data rest).head? = some '*' := by
            cases rest with
            | nil => rw [pyReplaceEmptyPat]; decide
            | cons f r' =>
              rw [pyReplaceEmptyPat]
              rfl
          have : e = '*' := by
            have := congrArg (List.head? ·) ht
            simp only [List.cons_append, List.head?_cons] at this
            rw [hhead] at this
            simpa [eq_comm] using this
          exact hq (by simp [this])
    · exact ((ih h').trans (List.suffix_cons c rest).isInfix)

theorem pyReplace_kill {m v : String} (hv : '*' ∉ v.data) (hvne : v.data ≠ []) :
    ¬ v.data <:+: (pyReplace m v maskString).data := by
  rw [pyReplace]
  show ¬ v.data <:+: pyReplaceL m.data v.data maskString.data
  rw [pyReplaceL, if_neg hvne]
  exact replGo_kill hv hvne m.data.length m.data le_rfl

theorem pyReplace_preserve {m p v : String} (hv : '*' ∉ v.data) (hvne : v.data ≠ [])
    (h : ¬ v.data <:+: m.data) : ¬ v.data <:+: (pyReplace m p maskString).data := by
  rw [pyReplace]
  show ¬ v.data <:+: pyReplaceL m.data p.data maskString.data
  rw [pyReplaceL]
  split
  · exact fun hin => h (emptyPat_infix_transfer hv hvne m.data hin)
  · exact fun hin => h (replGo_infix_transfer hv hvne m.data.length m.data hin)

theorem maskFilter_preserve {v : String} (hv : '*' ∉ v.data) (hvne : v.data ≠ []) :
    ∀ (items : List String) (msg : String), ¬ v.data <:+: msg.data →
      ¬ v.data <:+: (maskFilterMsg items msg).data := by
  intro items
  induction items with
  | nil => intro msg h; simpa [maskFilterMsg] using h
  | cons u rest ih =>
    intro msg h
    rw [maskFilterMsg, List.foldl_cons]
    exact ih (pyReplace msg u maskString) (pyReplace_preserve hv hvne h)

theorem maskFilter_kill {v : String} (hv : '*' ∉ v.data) (hvne : v.data ≠ []) :
    ∀ (items : List String) (msg : String), v ∈ items →
      ¬ v.data <:+: (maskFilterMsg items msg).data := by
  intro items
  induction items with
  | nil => intro msg h; simp at h
  | cons u rest ih =>
    intro msg hmem
    rw [maskFilterMsg, List.foldl_cons]
    rcases List.mem_cons.mp hmem with rfl | hmem
    · exact maskFilter_preserve hv hvne rest _ (pyReplace_kill hv hvne)
    · exact ih _ hmem

/-- C1 (confirmed): every value registered as secret — a value whose key lies
in the fixed sensitive-key set, or a value registered without a key — is
appended to the redaction registry, and every log record subsequently passed
through `MaskLoggerSecret.filter` passes the filter with every occurrence of
that exact value erased from its message (the message no longer contains the
value), regardless of which source supplied it.  The value is assumed
nonempty and free of the mask character `*`; with a mask-character-bearing
secret the replacement text itself could recreate an occurrence. -/
theorem c1_secret_redaction (value : String) (key : Option String)
    (items : List String) (msg : String)
    (hkey : key = none ∨ ∃ k, key = some k ∧ k ∈ sensitive_keys)
    (hvne : value.data ≠ []) (hstar : '*' ∉ value.data) :
    value ∈ add_sensitive_value_to_be_masked value key items ∧
    (MaskLoggerSecret_filter (add_sensitive_value_to_be_masked value key items) msg).2 = true ∧
    ¬ value.data <:+:
      (MaskLoggerSecret_filter (add_sensitive_value_to_be_masked value key items) msg).1.data := by
  have hmem : value ∈ add_sensitive_value_to_be_masked value key items := by
    rcases hkey with rfl | ⟨k, rfl, hk⟩
    · simp [add_sensitive_value_to_be_masked]
    · simp [add_sensitive_value_to_be_masked, hk]
  exact ⟨hmem, rfl, maskFilter_kill hstar hvne _ msg hmem⟩

/-- Witness for C1 at a concrete input: the password `hunter2` registered from
the interactive source (no key) disappears from a log message containing it. -/
theorem c1_secret_redaction_witness :
    "hunter2" ∈ add_sensitive_value_to_be_masked "hunter2" none [] ∧
    (MaskLoggerSecret_filter (add_sensitive_value_to_be_masked "hunter2" none [])
      "the password is hunter2!").2 = true ∧
    ¬ "hunter2".data <:+:
      (MaskLoggerSecret_filter (add_sensitive_value_to_be_masked "hunter2" none [])
        "the password is hunter2!").1.data :=
  c1_secret_redaction "hunter2" none [] "the password is hunter2!"
    (Or.inl rfl) (by decide) (by decide)


/-! ### Python dict (association list) lemmas -/

theorem upsert_map_lookup_self (d : List (String × String)) (k v : String)
    (h : d.any (fun p => p.1 = k) = true) :
    (d.map (fun p => if p.1 = k then (k, v) else p)).lookup k = some v := by
  induction d with
  | nil => simp at h
  | cons a rest ih =>
    rcases a with ⟨a1, a2⟩
    by_cases ha : a1 = k
    · subst ha
      simp [List.lookup_cons]
    · simp only [List.any_cons, Bool.or_eq_true, decide_eq_true_eq] at h
      have h' : rest.any (fun p => p.1 = k) = true := by
        rcases h with h | h
        · exact absurd h ha
        · simpa using h
      simp only [List.map_cons, if_neg ha]
      rw [List.lookup_cons, beq_false_of_ne (fun hk => ha hk.symm)]
      exact ih h'

theorem lookup_append_single_self (d : List (String × String)) (k v : String)
    (h : d.any (fun p => p.1 = k) = false) :
    (d ++ [(k, v)]).lookup k = some v := by
  induction d with
  | nil =>
    rw [List.nil_append, List.lookup_cons, beq_self_eq_true]
  | cons a rest ih =>
    rcases a with ⟨a1, a2⟩
    simp only [List.any_cons, Bool.or_eq_false_iff, decide_eq_false_iff_not] at h
    rw [List.cons_append, List.lookup_cons, beq_false_of_ne (fun hk => h.1 hk.symm)]
    exact ih (by simpa using h.2)

theorem pyDictUpsert_lookup_self (d : List (String × String)) (k v : String) :
    (pyDictUpsert d k v).lookup k = some v := by
  rw [pyDictUpsert]
  split
  · exact upsert_map_lookup_self d k v (by assumption)
  · exact lookup_append_single_self d k v (by rename_i h; exact Bool.eq_false_iff.mpr h)

theorem pyDictUpsert_lookup_ne (d : List (String × String)) (k v k' : String)
    (h : k' ≠ k) : (pyDictUpsert d k v).lookup k' = d.lookup k' := by
  rw [pyDictUpsert]
  split
  · clear * - h
    induction d with
    | nil => rfl
    | cons a rest ih =>
      rcases a with ⟨a1, a2⟩
      by_cases ha : a1 = k
      · subst ha
        simp [List.lookup_cons, beq_false_of_ne h, ih]
      · simp only [List.map_cons, if_neg ha]
        rw [List.lookup_cons, List.lookup_cons]
        cases hb : (k' == a1)
        · exact ih
        · rfl
  · clear * - h
    induction d with
    | nil =>
      rw [List.nil_append, List.lookup_cons, beq_false_of_ne h]
    | cons a rest ih =>
      rcases a with ⟨a1, a2⟩
      rw [List.cons_append, List.lookup_cons, List.lookup_cons]
      cases hb : (k' == a1)
      · exact ih
      · rfl

/-! ### update_ini lemmas -/

theorem ini_set_option_frame (ini : Ini) (sec key value sec' : String)
    (h : sec' ≠ sec) :
    get_section (ini_set_option ini sec key value) sec' = get_section ini sec' := by
  induction ini with
  | nil => rfl
  | cons s rest ih =>
    rcases s with ⟨n, opts⟩
    by_cases hn : n = sec
    · subst hn
      rw [ini_set_option, List.map_cons, if_pos rfl]
      rw [get_section, List.find?_cons_of_neg _ (by simpa using fun hk => h hk.symm),
        get_section, List.find?_cons_of_neg _ (by simpa using fun hk => h hk.symm)]
      exact ih
    · rw [ini_set_option, List.map_cons, if_neg hn]
      by_cases hn' : n = sec'
      · rw [get_section, List.find?_cons_of_pos _ (by simpa using hn'),
          get_section, List.find?_cons_of_pos _ (by simpa using hn')]
      · rw [get_section, List.find?_cons_of_neg _ (by simpa using hn'),
          get_section, List.find?_cons_of_neg _ (by simpa using hn')]
        exact ih

theorem ini_set_option_get_section (ini : Ini) (sec key value : String) (opts : IniSection)
    (h : get_section ini sec = some opts) :
    get_section (ini_set_option ini sec key value) sec =
      some (pyDictUpsert opts (optionxform key) value) := by
  induction ini with
  | nil => simp [get_section] at h
  | cons s rest ih =>
    rcases s with ⟨n, sopts⟩
    by_cases hn : n = sec
    · subst hn
      rw [get_section, List.find?_cons_of_pos _ (by simp)] at h
      simp only [Option.map_some'] at h
      cases h
      rw [ini_set_option, List.map_cons, if_pos rfl]
      rw [get_section, List.find?_cons_of_pos _ (by simp)]
      rfl
    · rw [get_section, List.find?_cons_of_neg _ (by simpa using hn)] at h
      rw [ini_set_option, List.map_cons, if_neg hn]
      rw [get_section, List.find?_cons_of_neg _ (by simpa using hn)]
      exact ih h

theorem ini_set_option_get_section_none (ini : Ini) (sec key value : String)
    (h : get_section ini sec = none) :
    get_section (ini_set_option ini sec key value) sec = none := by
  induction ini with
  | nil => rfl
  | cons s rest ih =>
    rcases s with ⟨n, sopts⟩
    by_cases hn : n = sec
    · rw [get_section, List.find?_cons_of_pos _ (by simpa using hn)] at h
      simp at h
    · rw [get_section, List.find?_cons_of_neg _ (by simpa using hn)] at h
      rw [ini_set_option, List.map_cons, if_neg hn]
      rw [get_section, List.find?_cons_of_neg _ (by simpa using hn)]
      exact ih h

theorem ini_set_option_has_section (ini : Ini) (sec key value sec' : String) :
    ini_has_section (ini_set_option ini sec key value) sec' = ini_has_section ini sec' := by
  induction ini with
  | nil => rfl
  | cons s rest ih =>
    rcases s with ⟨n, sopts⟩
    by_cases hn : n = sec
    · subst hn
      rw [ini_set_option, List.map_cons, if_pos rfl]
      simp only [ini_has_section, List.any_cons]
      congr 1
    · rw [ini_set_option, List.map_cons, if_neg hn]
      simp only [ini_has_section, List.any_cons]
      congr 1

theorem has_section_get_section (ini : Ini) (sec : String)
    (h : ini_has_section ini sec = true) : ∃ opts, get_section ini sec = some opts := by
  induction ini with
  | nil => simp [ini_has_section] at h
  | cons s rest ih =>
    rcases s with ⟨n, sopts⟩
    by_cases hn : n = sec
    · exact ⟨sopts, by rw [get_section, List.find?_cons_of_pos _ (by simpa using hn)]; rfl⟩
    · simp only [ini_has_section, List.any_cons, Bool.or_eq_true, decide_eq_true_eq] at h
      obtain ⟨opts, hopts⟩ := ih (by
        rcases h with h | h
        · exact absurd h hn
        · simpa [ini_has_section] using h)
      refine ⟨opts, ?_⟩
      rw [get_section, List.find?_cons_of_neg _ (by simpa using hn)]
      exact hopts

theorem ini_set_option_get_same (ini : Ini) (sec key value key' : String)
    (hsec : ini_has_section ini sec = true) (hk : optionxform key' = optionxform key) :
    ini_get (ini_set_option ini sec key value) sec key' = some value := by
  obtain ⟨opts, hopts⟩ := has_section_get_section ini sec hsec
  rw [ini_get, ini_set_option_get_section ini sec key value opts hopts]
  simp only [Option.some_bind]
  rw [hk]
  exact pyDictUpsert_lookup_self opts (optionxform key) value

theorem ini_set_option_get_other (ini : Ini) (sec key value key' : String)
    (hk : optionxform key' ≠ optionxform key) :
    ini_get (ini_set_option ini sec key value) sec key' = ini_get ini sec key' := by
  rw [ini_get, ini_get]
  cases hopts : get_section ini sec with
  | none => rw [ini_set_option_get_section_none ini sec key value hopts]
  | some opts =>
    rw [ini_set_option_get_section ini sec key value opts hopts]
    simp only [Option.some_bind]
    exact pyDictUpsert_lookup_ne opts (optionxform key) value (optionxform key') hk

theorem update_ini_fold (profile : String) :
    ∀ (kwargs : List (String × String)) (ini : Ini),
      ini_has_section ini profile = true →
      (kwargs.map (fun kv => optionxform kv.1)).Nodup →
      (∀ sec, sec ≠ profile →
        get_section (kwargs.foldl (fun i kv => ini_set_option i profile kv.1 kv.2) ini) sec =
          get_section ini sec) ∧
      (∀ key, optionxform key ∉ kwargs.map (fun kv => optionxform kv.1) →
        ini_get (kwargs.foldl (fun i kv => ini_set_option i profile kv.1 kv.2) ini) profile key =
          ini_get ini profile key) ∧
      (∀ kv ∈ kwargs,
        ini_get (kwargs.foldl (fun i kv => ini_set_option i profile kv.1 kv.2) ini) profile kv.1 =
          some kv.2) ∧
      ini_has_section (kwargs.foldl (fun i kv => ini_set_option i profile kv.1 kv.2) ini)
        profile = true := by
  intro kwargs
  induction kwargs with
  | nil =>
    intro ini hsec _
    exact ⟨fun _ _ => rfl, fun _ _ => rfl, fun kv hkv => by simp at hkv, hsec⟩
  | cons kv rest ih =>
    intro ini hsec hnodup
    rcases kv with ⟨k, v⟩
    simp only [List.map_cons, List.nodup_cons] at hnodup
    have hsec' : ini_has_section (ini_set_option ini profile k v) profile = true := by
      rw [ini_set_option_has_section]
      exact hsec
    obtain ⟨ihframe, ihother, ihmem, ihsec⟩ := ih (ini_set_option ini profile k v) hsec' hnodup.2
    simp only [List.foldl_cons]
    refine ⟨?_, ?_, ?_, ihsec⟩
    · intro sec hne
      rw [ihframe sec hne, ini_set_option_frame ini profile k v sec hne]
    · intro key hkey
      simp only [List.map_cons, List.mem_cons, not_or] at hkey
      rw [ihother key hkey.2, ini_set_option_get_other ini profile k v key hkey.1]
    · intro kv' hkv'
      rcases List.mem_cons.mp hkv' with heq | hmem
      · cases heq
        rw [ihother k hnodup.1, ini_set_option_get_same ini profile k v k hsec rfl]
      · exact ihmem kv' hmem

/-- C2 (amended): for every parsed ini content, every profile name other than
configparser's reserved default section name, and every supplied key set with
pairwise-distinct transformed option names, `update_ini` succeeds and the
written content preserves every other section exactly, preserves the
addressed section's keys that are not among the supplied ones, holds every
supplied key with its supplied value, and contains the addressed section
(creating it if absent).  For the reserved name `DEFAULT` the call instead
crashes in `add_section` (see the counterexample). -/
theorem c2_update_ini (ini : Ini) (profile : String) (kwargs : List (String × String))
    (hprof : profile ≠ "DEFAULT")
    (hkeys : (kwargs.map (fun kv => optionxform kv.1)).Nodup) :
    ∃ out, update_ini profile ini kwargs = .ok out ∧
      (∀ sec, sec ≠ profile → get_section out sec = get_section ini sec) ∧
      (∀ key, optionxform key ∉ kwargs.map (fun kv => optionxform kv.1) →
        ini_get out profile key = ini_get ini profile key) ∧
      (∀ kv ∈ kwargs, ini_get out profile kv.1 = some kv.2) ∧
      ini_has_section out profile = true := by
  rw [update_ini, if_neg hprof]
  set ini1 := if ini_has_section ini profile then ini else ini ++ [(profile, [])] with hini1
  refine ⟨_, rfl, ?_⟩
  have hsec1 : ini_has_section ini1 profile = true := by
    rw [hini1]
    split
    · assumption
    · rw [ini_has_section, List.any_append]
      simp [ini_has_section]
  obtain ⟨hframe, hother, hmem, hsec⟩ := update_ini_fold profile kwargs ini1 hsec1 hkeys
  refine ⟨?_, ?_, hmem, hsec⟩
  · intro sec hne
    rw [hframe sec hne, hini1]
    split
    · rfl
    · rw [get_section, List.find?_append]
      cases hfind : ini.find? (fun s => s.1 = sec) with
      | some s => simp [get_section, hfind]
      | none =>
        simp only [Option.none_or]
        rw [List.find?_cons_of_neg _ (by simpa using fun h => hne h.symm)]
        simp [get_section, hfind, List.find?]
  · intro key hkey
    rw [hother key hkey, hini1]
    split
    · rfl
    · rename_i hnosec
      have h1 : get_section ini profile = none := by
        cases hfind : ini.find? (fun s => s.1 = profile) with
        | some s =>
          exfalso
          apply hnosec
          rw [ini_has_section, List.any_eq_true]
          refine ⟨s, List.mem_of_find?_eq_some hfind, ?_⟩
          simpa using List.find?_some hfind
        | none => simp [get_section, hfind]
      have h2 : get_section (ini ++ [(profile, [])]) profile = some [] := by
        rw [get_section, List.find?_append]
        cases hfind : ini.find? (fun s => s.1 = profile) with
        | some s =>
          exfalso
          apply hnosec
          rw [ini_has_section, List.any_eq_true]
          refine ⟨s, List.mem_of_find?_eq_some hfind, ?_⟩
          simpa using List.find?_some hfind
        | none =>
          simp only [Option.none_or]
          rw [List.find?_cons_of_pos _ (by simp)]
          rfl
      rw [ini_get, ini_get, h1, h2]
      rfl

/-- C2 counterexample: the claim, which quantifies over every profile name,
fails for the profile name `DEFAULT`: `configparser.has_section` is `False`
for the default section, so `update_ini` calls `add_section("DEFAULT")`,
which raises an uncaught `ValueError` instead of writing the file. -/
theorem c2_counterexample :
    update_ini "DEFAULT" [("other", [("foo", "bar")])] [("region", "us-east-1")] = .error () :=
  rfl

/-- Witness for C2 at the spec's concrete round-trip example: writing the
`work` profile into a file already holding `[other]` with `foo=bar`. -/
theorem c2_update_ini_witness :
    ∃ out, update_ini "work" [("other", [("foo", "bar")])]
        [("aws_access_key_id", "AKIAXXXX"), ("aws_secret_access_key", "s3cr3t"),
          ("aws_session_token", "tok")] = .ok out ∧
      (∀ sec, sec ≠ "work" → get_section out sec = get_section [("other", [("foo", "bar")])] sec) ∧
      (∀ key, optionxform key ∉
          ([("aws_access_key_id", "AKIAXXXX"), ("aws_secret_access_key", "s3cr3t"),
            ("aws_session_token", "tok")].map (fun kv => optionxform kv.1)) →
        ini_get out "work" key = ini_get [("other", [("foo", "bar")])] "work" key) ∧
      (∀ kv ∈ [("aws_access_key_id", "AKIAXXXX"), ("aws_secret_access_key", "s3cr3t"),
          ("aws_session_token", "tok")], ini_get out "work" kv.1 = some kv.2) ∧
      ini_has_section out "work" = true :=
  c2_update_ini [("other", [("foo", "bar")])] "work"
    [("aws_access_key_id", "AKIAXXXX"), ("aws_secret_access_key", "s3cr3t"),
      ("aws_session_token", "tok")] (by decide) (by decide)

/-! ### Role selection theorems -/

/-- C3 counterexample: the configured alias `p` matches the trailing name of
two roles across two candidate sources (one per source), yet `select_role_arn`
does not exit with the ambiguity error — it selects the first source's match,
because the code counts duplicates only within a single source. -/
theorem c3_counterexample :
    ((["a/p"] ++ ["b/p"]).map role_name).count "p" = 2 ∧
    select_role_arn ⟨some "p", none⟩ [("u1", ["a/p"]), ("u2", ["b/p"])] =
      .selected "a/p" "u1" ∧
    select_role_arn ⟨some "p", none⟩ [("u1", ["a/p"]), ("u2", ["b/p"])] ≠ .exit 2 := by
  refine ⟨by decide, by decide, by decide⟩

/-- C3 (amended): if some candidate source, taken in iteration order, has
more than one role whose trailing name equals the configured alias, and every
earlier source neither matches the alias, nor contains the configured role
ARN, nor itself trips the ambiguity check, then role selection exits with
status 2 and no role is selected.  (Matches spread across different sources
do not trigger the ambiguity error; the first source with a unique match
wins — see the counterexample.) -/
theorem c3_ambiguity (cfg : AwsCfg) (pre post : List (String × List String))
    (url : String) (roles : List String)
    (hamb : 1 < profile_matches cfg.profile roles)
    (hpre : ∀ e ∈ pre, profile_matches cfg.profile e.2 ≤ 1 ∧
      cfg.profile.bind (fun p => (role_names_table e.2).lookup p) = none ∧
      (∀ a, cfg.role_arn = some a → a ∉ e.2)) :
    select_role_arn cfg (pre ++ (url, roles) :: post) = .exit 2 := by
  have hloop : select_role_loop cfg (pre ++ (url, roles) :: post) = .error 2 := by
    induction pre with
    | nil =>
      rw [List.nil_append, select_role_loop, if_pos hamb]
    | cons e pre ih =>
      rcases e with ⟨u, rs⟩
      obtain ⟨h1, h2, h3⟩ := hpre (u, rs) (by simp)
      have h1' : profile_matches cfg.profile rs ≤ 1 := h1
      have h2' : cfg.profile.bind (fun p => (role_names_table rs).lookup p) = none := h2
      rw [List.cons_append, select_role_loop, if_neg (by omega), h2']
      have ih' := ih (fun e he => hpre e (List.mem_cons_of_mem _ he))
      cases ha : cfg.role_arn with
      | none => exact ih'
      | some a =>
        show (if a ∈ rs then Except.ok (some (a, u))
          else select_role_loop cfg (pre ++ (url, roles) :: post)) = Except.error 2
        rw [if_neg (h3 a ha)]
        exact ih'
  rw [select_role_arn, hloop]

/-- Witness for C3 (amended) at a concrete input: a single source whose two
roles both have trailing name `p`. -/
theorem c3_ambiguity_witness :
    select_role_arn ⟨some "p", none⟩ [("u", ["a/p", "b/p"])] = .exit 2 :=
  c3_ambiguity ⟨some "p", none⟩ [] [] "u" ["a/p", "b/p"] (by decide) (by simp)

/-- C4 counterexample: the configured alias matches exactly one trailing role
name across all sources (in the second source), and the configured role ARN
is present in the first source; the claimed precedence picks the alias match
`("x/alias", "u2")`, but the code selects the role ARN from the earlier
source, because precedence is applied per source in iteration order. -/
theorem c4_counterexample :
    ((["arnB"] ++ ["x/alias"]).map role_name).count "alias" = 1 ∧
    select_role_arn ⟨some "alias", some "arnB"⟩ [("u1", ["arnB"]), ("u2", ["x/alias"])] =
      .selected "arnB" "u1" ∧
    select_role_arn ⟨some "alias", some "arnB"⟩ [("u1", ["arnB"]), ("u2", ["x/alias"])] ≠
      .selected "x/alias" "u2" := by
  refine ⟨by decide, by decide, by decide⟩

/-- C4 (amended): role selection equals the per-source precedence scan of
`select_role_spec`: sources are visited in iteration order; within a source
the alias match takes precedence over the configured role ARN; the first
source yielding a selection wins (so an earlier source's role-ARN match beats
a later source's alias match); if no source yields a selection, a configured
role ARN fails with exit status 2 (role not found) and otherwise interactive
selection is entered. -/
theorem c4_precedence (cfg : AwsCfg) (aps : List (String × List String)) :
    select_role_arn cfg aps = select_role_spec cfg aps := by
  induction aps with
  | nil =>
    cases ha : cfg.role_arn <;>
      simp [select_role_arn, select_role_loop, select_role_spec, ha]
  | cons e rest ih =>
    rcases e with ⟨url, roles⟩
    by_cases hamb : 1 < profile_matches cfg.profile roles
    · simp [select_role_arn, select_role_loop, select_role_spec, hamb]
    · cases hlook : cfg.profile.bind (fun p => (role_names_table roles).lookup p) with
      | some r =>
        simp [select_role_arn, select_role_loop, select_role_spec, hamb, hlook]
      | none =>
        have hspec : select_role_spec cfg ((url, roles) :: rest) =
            (match cfg.role_arn with
             | some a =>
               if a ∈ roles then RoleSelection.selected a url else select_role_spec cfg rest
             | none => select_role_spec cfg rest) := by
          simp [select_role_spec, hamb, hlook]
        cases ha : cfg.role_arn with
        | none =>
          have hloop : select_role_loop cfg ((url, roles) :: rest) =
              select_role_loop cfg rest := by
            simp [select_role_loop, hamb, hlook, ha]
          rw [hspec, ha]
          calc select_role_arn cfg ((url, roles) :: rest)
              = select_role_arn cfg rest := by
                simp only [select_role_arn, hloop]
            _ = select_role_spec cfg rest := ih
        | some a =>
          by_cases hmem : a ∈ roles
          · simp [select_role_arn, select_role_loop, select_role_spec, hamb, hlook, ha, hmem]
          · have hloop : select_role_loop cfg ((url, roles) :: rest) =
                select_role_loop cfg rest := by
              simp [select_role_loop, hamb, hlook, ha, hmem]
            rw [hspec, ha]
            show select_role_arn cfg ((url, roles) :: rest) =
              if a ∈ roles then RoleSelection.selected a url else select_role_spec cfg rest
            rw [if_neg hmem]
            calc select_role_arn cfg ((url, roles) :: rest)
                = select_role_arn cfg rest := by
                  simp only [select_role_arn, hloop]
              _ = select_role_spec cfg rest := ih

/-! ### MFA description theorems -/

/-- C7 counterexample: describing a `token` option whose dictionary has no
`profile` key raises `AttributeError` (`None.get(...)`) instead of returning
the sentinel — the claim's "never fails, falls back when the whole profile
object is absent" is false. -/
theorem c7_counterexample :
    mfa_option_info ⟨some "token", none, none⟩ = .error () ∧
    mfa_option_info ⟨some "token", none, none⟩ ≠ .ok "Not Presented" :=
  ⟨rfl, fun h => Except.noConfusion h⟩

/-- C7 (amended): describing an MFA option returns the claim's
sub-type-specific field (falling back to the fixed sentinel `Not Presented`
when the sub-type is unrecognized, the `factorType` key is absent, or the
expected field is missing or empty) in every case except one: when the
sub-type needs the `profile` sub-object and that object is absent, the call
raises `AttributeError` instead of returning the sentinel. -/
theorem c7_mfa_option_info (opt : MfaOption) :
    mfa_option_info opt =
      if needs_profile opt ∧ opt.profile = none then .error ()
      else .ok (describeOptionSpec opt) := by
  rcases opt with ⟨ft, prof, vn⟩
  cases ft with
  | none =>
    simp [mfa_option_info, needs_profile, describeOptionSpec, expected_field]
  | some ft =>
    by_cases h1 : ft = "token"
    · subst h1
      cases prof <;> simp [mfa_option_info, factor_type_info, profile_field,
        needs_profile, profile_based_types, describeOptionSpec, expected_field]
    by_cases h2 : ft = "token:software:totp"
    · subst h2
      cases prof <;> simp [mfa_option_info, factor_type_info, profile_field,
        needs_profile, profile_based_types, describeOptionSpec, expected_field]
    by_cases h3 : ft = "token:hardware"
    · subst h3
      cases prof <;> simp [mfa_option_info, factor_type_info, profile_field,
        needs_profile, profile_based_types, describeOptionSpec, expected_field]
    by_cases h4 : ft = "push"
    · subst h4
      cases prof <;> simp [mfa_option_info, factor_type_info, profile_field,
        needs_profile, profile_based_types, describeOptionSpec, expected_field]
    by_cases h5 : ft = "sms"
    · subst h5
      cases prof <;> simp [mfa_option_info, factor_type_info, profile_field,
        needs_profile, profile_based_types, describeOptionSpec, expected_field]
    by_cases h6 : ft = "call"
    · subst h6
      cases prof <;> simp [mfa_option_info, factor_type_info, profile_field,
        needs_profile, profile_based_types, describeOptionSpec, expected_field]
    by_cases h7 : ft = "webauthn"
    · subst h7
      cases prof <;> simp [mfa_option_info, factor_type_info, profile_field,
        needs_profile, profile_based_types, describeOptionSpec, expected_field]
    by_cases h8 : ft = "web"
    · subst h8
      cases prof <;> simp [mfa_option_info, factor_type_info, profile_field,
        needs_profile, profile_based_types, describeOptionSpec, expected_field]
    by_cases h9 : ft = "u2f"
    · subst h9
      cases prof <;> simp [mfa_option_info, factor_type_info, profile_field,
        needs_profile, profile_based_types, describeOptionSpec, expected_field]
    by_cases h10 : ft = "token:hotp"
    · subst h10
      cases prof <;> simp [mfa_option_info, factor_type_info, profile_field,
        needs_profile, profile_based_types, describeOptionSpec, expected_field]
    by_cases h11 : ft = "question"
    · subst h11
      cases prof <;> simp [mfa_option_info, factor_type_info, profile_field,
        needs_profile, profile_based_types, describeOptionSpec, expected_field]
    by_cases h12 : ft = "email"
    · subst h12
      cases prof <;> simp [mfa_option_info, factor_type_info, profile_field,
        needs_profile, profile_based_types, describeOptionSpec, expected_field]
    cases prof <;> simp [mfa_option_info, factor_type_info, profile_field,
      needs_profile, profile_based_types, describeOptionSpec, expected_field,
      h1, h2, h3, h4, h5, h6, h7, h8, h9, h10, h11, h12]

/-! ### SAML response theorems -/

theorem scan_saml_fields_all_some (decode : String → String) :
    ∀ (fields : List (Option String)) (v : String),
      (∀ f ∈ fields, f ≠ none) →
      scan_saml_fields decode (fields ++ [some v]) = .ok (some (decode v)) := by
  intro fields
  induction fields with
  | nil => intro v _; rfl
  | cons f rest ih =>
    intro v hall
    cases f with
    | none => exact absurd rfl (hall none (by simp))
    | some u =>
      rw [List.cons_append, scan_saml_fields,
        ih v (fun g hg => hall g (List.mem_cons_of_mem _ hg))]

/-- C6 counterexample: with no assertion input field present, the code exits
with status 1, not with the user-input/configuration error class 2 that the
claim (and the spec's exit-status table) assigns to a missing assertion. -/
theorem c6_counterexample :
    validate_saml_response (fun s => s) [] = SamlResult.exit 1 ∧
    validate_saml_response (fun s => s) [] ≠ SamlResult.exit 2 :=
  ⟨rfl, by decide⟩

/-- C6 (amended): for every decode function and every HTML body whose
assertion input fields all carry a value attribute, extraction fails
(terminating the invocation) exactly when no `SAMLResponse` input field is
present — but that failure exits with the internal-error status 1, not the
user-error class 2 stated by the claim. -/
theorem c6_missing_assertion (decode : String → String)
    (fields : List (Option String)) (hvals : ∀ f ∈ fields, f ≠ none) :
    (fields = [] → validate_saml_response decode fields = .exit 1) ∧
    (fields ≠ [] → ∃ xml, validate_saml_response decode fields = .ok xml) := by
  constructor
  · rintro rfl
    rfl
  · intro hne
    rcases List.eq_nil_or_concat fields with rfl | ⟨fields', v, rfl⟩
    · exact absurd rfl hne
    rw [List.concat_eq_append] at hvals ⊢
    cases v with
    | none =>
      exact absurd rfl (hvals none (by simp))
    | some u =>
      refine ⟨decode u, ?_⟩
      rw [validate_saml_response, scan_saml_fields_all_some decode fields' u
        (fun g hg => hvals g (List.mem_append_left _ hg))]

/-- Witness for C6 (amended) at concrete inputs: one body with a single
valued assertion field. -/
theorem c6_missing_assertion_witness :
    ([some "Zm9v"] = ([] : List (Option String)) →
      validate_saml_response (fun s => s) [some "Zm9v"] = .exit 1) ∧
    ([some "Zm9v"] ≠ ([] : List (Option String)) →
      ∃ xml, validate_saml_response (fun s => s) [some "Zm9v"] = .ok xml) :=
  c6_missing_assertion (fun s => s) [some "Zm9v"] (by decide)

/-- C9 (confirmed): for every decode function and every HTML body containing
one or more assertion input fields, each carrying a value, extraction scans
all of them and returns the decoded value of the last field in document
order, ignoring the values of all earlier matching fields. -/
theorem c9_last_assertion_field (decode : String → String)
    (fields : List (Option String)) (v : String)
    (hvals : ∀ f ∈ fields, f ≠ none) :
    validate_saml_response decode (fields ++ [some v]) = .ok (decode v) := by
  rw [validate_saml_response, scan_saml_fields_all_some decode fields v hvals]

/-- Witness for C9 at a concrete input: the value of the second (last) field
wins over the first. -/
theorem c9_last_assertion_field_witness :
    validate_saml_response (fun s => s) ([some "first"] ++ [some "last"]) = .ok "last" :=
  c9_last_assertion_field (fun s => s) [some "first"] "last" (by decide)

/-! ### Alias degradation theorems -/

theorem substr_search_mono {n1 n2 : List Char} (hpre : n1 <+: n2) :
    ∀ l : List Char, substrSearch n2 l = true → substrSearch n1 l = true := by
  intro l
  induction l with
  | nil =>
    intro h
    rw [substrSearch] at h ⊢
    have : n2 = [] := by simpa using h
    subst this
    simp [List.prefix_nil.mp hpre]
  | cons c rest ih =>
    intro h
    rw [substrSearch, Bool.or_eq_true] at h ⊢
    rcases h with h | h
    · exact Or.inl (List.isPrefixOf_iff_prefix.mpr
        (hpre.trans (List.isPrefixOf_iff_prefix.mp h)))
    · exact Or.inr (ih h)

theorem pyIn_marker_absent {body : String} (h : pyIn "Account:" body = false) :
    pyIn "Account: " body = false := by
  rw [pyIn] at h ⊢
  cases hb : substrSearch ("Account: ").data body.data with
  | false => rfl
  | true =>
    have := @substr_search_mono ("Account:").data ("Account: ").data
      (by decide) body.data hb
    rw [this] at h
    exact h

theorem mapM_rows_degraded (url lbl : String) :
    ∀ (roles : List String), (∀ role ∈ roles, 5 ≤ (pySplit role ":").length) →
      roles.mapM (fun role =>
        match role_account_id role with
        | none => (Except.error () : Except Unit (String × String × String × String))
        | some acct => Except.ok (lbl, acct, role, url)) =
      .ok (roles.map (fun role => (lbl, (pySplit role ":").getD 4 "", role, url))) := by
  intro roles
  induction roles with
  | nil =>
    intro _
    rw [List.mapM_nil]
    rfl
  | cons r rs ih =>
    intro hall
    have h5 : 4 < (pySplit r ":").length := hall r (by simp)
    have hacct : role_account_id r = some ((pySplit r ":").getD 4 "") := by
      simp [role_account_id, List.getD, List.get?_eq_getElem?, List.getElem?_eq_getElem h5]
    simp only [List.mapM_cons]
    rw [hacct, ih (fun g hg => hall g (List.mem_cons_of_mem _ hg))]
    rfl

theorem app_alias_rows_degraded (url : String) (app : OktaApp)
    (hall : ∀ role ∈ app.roles, 5 ≤ (pySplit role ":").length) :
    app_alias_rows url app none = .ok (app.roles.map (fun role =>
      (app.label, (pySplit role ":").getD 4 "", role, url))) := by
  have hfun : (fun role =>
      match role_account_id role with
      | none => (Except.error () : Except Unit (String × String × String × String))
      | some acct =>
        match (none : Option (List (String × String))) with
        | some t =>
          if t = [] then Except.ok (app.label, acct, role, url)
          else
            match t.lookup acct with
            | none => Except.error ()
            | some al => Except.ok (app.label, al, role, url)
        | none => Except.ok (app.label, acct, role, url)) =
      (fun role =>
        match role_account_id role with
        | none => (Except.error () : Except Unit (String × String × String × String))
        | some acct => Except.ok (app.label, acct, role, url)) := by
    funext role
    cases role_account_id role <;> rfl
  rw [app_alias_rows, hfun]
  exact mapM_rows_degraded url app.label app.roles hall

theorem get_account_aliases_absent {body : String} (nodes : List String)
    (h : pyIn "Account:" body = false) :
    get_account_aliases body nodes = .ok none := by
  rw [get_account_aliases]
  rw [if_pos (pyIn_marker_absent h)]
  rfl

/-- C8 (confirmed): for every set of candidate sources whose alias-lookup
response bodies do not contain the `Account:` marker, `get_account_aliases`
returns `None` (rather than raising or exiting), and interactive role
selection builds its rows without raising, labelling every role with the raw
account identifier — the fifth colon-separated field of the role ARN (each
role is assumed to have at least five such fields, which every ARN extracted
by `extract_arns` does). -/
theorem c8_alias_degradation (apps : List (String × OktaApp))
    (hmarker : ∀ p ∈ apps, pyIn "Account:" p.2.alias_response_text = false)
    (hroles : ∀ p ∈ apps, ∀ role ∈ p.2.roles, 5 ≤ (pySplit role ":").length) :
    (∀ p ∈ apps,
      get_account_aliases p.2.alias_response_text p.2.alias_text_nodes = .ok none) ∧
    prompt_role_choices_rows apps = .ok ((apps.map (fun p =>
      p.2.roles.map (fun role =>
        (p.2.label, (pySplit role ":").getD 4 "", role, p.1)))).flatten) := by
  refine ⟨fun p hp => get_account_aliases_absent _ (hmarker p hp), ?_⟩
  rw [prompt_role_choices_rows]
  have hmapM : apps.mapM (fun p => do
      let tbl ← get_account_aliases p.2.alias_response_text p.2.alias_text_nodes
      app_alias_rows p.1 p.2 tbl) =
      .ok (apps.map (fun p => p.2.roles.map (fun role =>
        (p.2.label, (pySplit role ":").getD 4 "", role, p.1)))) := by
    induction apps with
    | nil => rw [List.mapM_nil]; rfl
    | cons p ps ih =>
      have hg : get_account_aliases p.2.alias_response_text p.2.alias_text_nodes =
          .ok none :=
        get_account_aliases_absent _ (hmarker p (by simp))
      have hr : app_alias_rows p.1 p.2 none = .ok (p.2.roles.map (fun role =>
          (p.2.label, (pySplit role ":").getD 4 "", role, p.1))) :=
        app_alias_rows_degraded p.1 p.2 (hroles p (by simp))
      simp only [List.mapM_cons]
      rw [show (do
          let tbl ← get_account_aliases p.2.alias_response_text p.2.alias_text_nodes
          app_alias_rows p.1 p.2 tbl) = app_alias_rows p.1 p.2 none by rw [hg]; rfl]
      rw [hr, ih (fun q hq => hmarker q (List.mem_cons_of_mem _ hq))
        (fun q hq => hroles q (List.mem_cons_of_mem _ hq))]
      rfl
  rw [hmapM]
  rfl

/-- Witness for C8 at a concrete input: one source whose alias-lookup body
lacks the marker and one well-formed role ARN. -/
theorem c8_alias_degradation_witness :
    (∀ p ∈ [("https://acme.okta.com/home/amazon_aws/b07384d113edec49eaa6/123",
        OktaApp.mk "AWS" ["arn:aws:iam::123456789012:role/admin"] "<html>no marker</html>" [])],
      get_account_aliases p.2.alias_response_text p.2.alias_text_nodes = .ok none) ∧
    prompt_role_choices_rows
      [("https://acme.okta.com/home/amazon_aws/b07384d113edec49eaa6/123",
        OktaApp.mk "AWS" ["arn:aws:iam::123456789012:role/admin"] "<html>no marker</html>" [])] =
      .ok (([("https://acme.okta.com/home/amazon_aws/b07384d113edec49eaa6/123",
        OktaApp.mk "AWS" ["arn:aws:iam::123456789012:role/admin"] "<html>no marker</html>" [])].map
        (fun p => p.2.roles.map (fun role =>
          (p.2.label, (pySplit role ":").getD 4 "", role, p.1)))).flatten) :=
  c8_alias_degradation
    [("https://acme.okta.com/home/amazon_aws/b07384d113edec49eaa6/123",
      OktaApp.mk "AWS" ["arn:aws:iam::123456789012:role/admin"] "<html>no marker</html>" [])]
    (by decide) (by decide)

/-! ### URL sanitization theorems -/

theorem splitScheme_https (r : List Char) :
    splitScheme ("https://".data ++ r) = (['h', 't', 't', 'p', 's'], '/' :: '/' :: r) := rfl

theorem splitNetloc_slashes (r : List Char) :
    splitNetloc ('/' :: '/' :: r) = (r.takeWhile notNetlocEnd, r.dropWhile notNetlocEnd) := rfl

theorem get_base_url_https (r : String) :
    get_base_url ("https://" ++ r) =
      String.mk ("https://".data ++ r.data.takeWhile notNetlocEnd) := by
  have hdata : ("https://" ++ r).data = "https://".data ++ r.data := String.data_append _ _
  rw [get_base_url, pyUrlparse, hdata, splitScheme_https]
  rfl

theorem get_base_url_https_startswith (r : String) :
    pyStartswith ("https://" ++ r) (get_base_url ("https://" ++ r)) = true := by
  rw [get_base_url_https, pyStartswith]
  apply List.isPrefixOf_iff_prefix.mpr
  show ("https://".data ++ r.data.takeWhile notNetlocEnd) <+: ("https://" ++ r).data
  rw [String.data_append]
  exact ⟨r.data.dropWhile notNetlocEnd, by
    rw [List.append_assoc, List.takeWhile_append_dropWhile]⟩

theorem origin_msg_absent (c' : TdConfig) (o' s : String)
    (h1 : c'.okta_org = some o') (h2 : c'.okta_app_url = some s)
    (hsw : pyStartswith s o' = true) :
    ∀ o a, ValidationMsg.originMismatch o a ∉ validate_configuration c' := by
  intro o a hmem
  rw [validate_configuration] at hmem
  simp only [List.mem_append, List.mem_singleton] at hmem
  rcases hmem with ((((h | h) | h) | h) | h) | h
  · split at h <;> simp at h
  · split at h <;> simp at h
  · split at h <;> simp at h
  · split at h <;> simp at h
  · split at h <;> simp at h
  · split at h
    · rename_i hcond
      rw [h1, h2] at hcond
      simp only [Option.getD_some] at hcond
      rw [hsw] at hcond
      simp at hcond
    · simp at h

/-- C5 counterexample: with BOTH the organization URL and the app URL
configured (with different origins), `sanitize_config_values` still rewrites
the org URL from the app URL's origin — the claim's "the org URL is
rewritten from the app URL only in the only-app-URL-given case" is false. -/
theorem c5_counterexample :
    truthy (TdConfig.mk (some "https://a.example.com")
      (some "https://b.example.com/home/amazon_aws/abcdefghijklmnopqrst/123")
      (some "jane.doe") (some "pw") (some "json") (some "us-east-1")).okta_org = true ∧
    truthy (TdConfig.mk (some "https://a.example.com")
      (some "https://b.example.com/home/amazon_aws/abcdefghijklmnopqrst/123")
      (some "jane.doe") (some "pw") (some "json") (some "us-east-1")).okta_app_url = true ∧
    (sanitize_config_values ["json"] ["us-east-1"] "json" "us-east-1"
      (TdConfig.mk (some "https://a.example.com")
        (some "https://b.example.com/home/amazon_aws/abcdefghijklmnopqrst/123")
        (some "jane.doe") (some "pw") (some "json") (some "us-east-1"))).okta_org =
      some "https://b.example.com" := by
  refine ⟨rfl, rfl, ?_⟩
  decide

/-- C5 (amended): after the post-merge sanitization pass, whenever an app URL
is present (truthy) the organization URL is unconditionally rewritten to the
app URL's origin `scheme://host` — also when an organization URL of a
different origin was supplied (see the counterexample) — so the two always
share the same origin afterwards, and for an `https://` app URL the separate
origin check of `validate_configuration` (rejecting an app URL that does not
start with the org URL) can no longer fire; the org URL is left unchanged
only when no app URL is present. -/
theorem c5_sanitize (output_types regions : List String)
    (default_output default_region : String) (c : TdConfig) :
    (∀ s, c.okta_app_url = some s → s ≠ "" →
      (sanitize_config_values output_types regions default_output default_region c).okta_org =
        some (get_base_url s) ∧
      (sanitize_config_values output_types regions default_output default_region
        c).okta_app_url = some s ∧
      (∀ r, s = "https://" ++ r →
        ∀ o a, ValidationMsg.originMismatch o a ∉
          validate_configuration
            (sanitize_config_values output_types regions default_output default_region c))) ∧
    (truthy c.okta_app_url = false →
      (sanitize_config_values output_types regions default_output default_region c).okta_org =
        c.okta_org) := by
  constructor
  · intro s hs hne
    have htru : truthy c.okta_app_url = true := by rw [hs]; simpa [truthy] using hne
    have htru2 : truthy (some s) = true := by simpa [truthy] using hne
    have horg : (sanitize_config_values output_types regions default_output default_region
        c).okta_org = some (get_base_url s) := by
      rw [sanitize_config_values]
      simp only [htru, if_true, hs, Option.getD_some, apply_ite TdConfig.okta_org]
      simp [htru2]
    have happ : (sanitize_config_values output_types regions default_output default_region
        c).okta_app_url = some s := by
      rw [sanitize_config_values]
      simp only [htru, if_true, hs, Option.getD_some, apply_ite TdConfig.okta_app_url]
      simp [htru2]
    refine ⟨horg, happ, ?_⟩
    rintro r rfl
    exact origin_msg_absent _ _ _ horg happ (get_base_url_https_startswith r)
  · intro hfalse
    rw [sanitize_config_values]
    simp only [hfalse, Bool.false_eq_true, if_false, apply_ite TdConfig.okta_org]
    simp

/-- Witness for C5 (amended) at the counterexample's concrete configuration. -/
theorem c5_sanitize_witness :
    (sanitize_config_values ["json"] ["us-east-1"] "json" "us-east-1"
      (TdConfig.mk (some "https://a.example.com")
        (some "https://b.example.com/home/amazon_aws/abcdefghijklmnopqrst/123")
        (some "jane.doe") (some "pw") (some "json") (some "us-east-1"))).okta_org =
      some (get_base_url "https://b.example.com/home/amazon_aws/abcdefghijklmnopqrst/123") ∧
    (sanitize_config_values ["json"] ["us-east-1"] "json" "us-east-1"
      (TdConfig.mk (some "https://a.example.com")
        (some "https://b.example.com/home/amazon_aws/abcdefghijklmnopqrst/123")
        (some "jane.doe") (some "pw") (some "json") (some "us-east-1"))).okta_app_url =
      some "https://b.example.com/home/amazon_aws/abcdefghijklmnopqrst/123" ∧
    (∀ o a, ValidationMsg.originMismatch o a ∉
      validate_configuration (sanitize_config_values ["json"] ["us-east-1"] "json" "us-east-1"
        (TdConfig.mk (some "https://a.example.com")
          (some "https://b.example.com/home/amazon_aws/abcdefghijklmnopqrst/123")
          (some "jane.doe") (some "pw") (some "json") (some "us-east-1")))) := by
  have h := (c5_sanitize ["json"] ["us-east-1"] "json" "us-east-1"
    (TdConfig.mk (some "https://a.example.com")
      (some "https://b.example.com/home/amazon_aws/abcdefghijklmnopqrst/123")
      (some "jane.doe") (some "pw") (some "json") (some "us-east-1"))).1
    "https://b.example.com/home/amazon_aws/abcdefghijklmnopqrst/123" rfl (by decide)
  exact ⟨h.1, h.2.1, h.2.2 "b.example.com/home/amazon_aws/abcdefghijklmnopqrst/123" rfl⟩

/-! ### ARN extraction theorems -/

theorem getLast?_cons_of_ne_nil {α : Type} (a : α) {l : List α} (h : l ≠ []) :
    (a :: l).getLast? = l.getLast? := by
  cases l with
  | nil => exact absurd rfl h
  | cons b t => rfl

theorem foldl_upsert_lookup (k : String) :
    ∀ (ms : List (String × String)) (d : List (String × String)),
      (ms.foldl (fun d p => pyDictUpsert d p.1 p.2) d).lookup k =
        (match (ms.filter (fun p => p.1 = k)).getLast? with
         | some p => some p.2
         | none => d.lookup k) := by
  intro ms
  induction ms with
  | nil => intro d; rfl
  | cons a rest ih =>
    intro d
    rw [List.foldl_cons, ih (pyDictUpsert d a.1 a.2)]
    by_cases ha : a.1 = k
    · rw [List.filter_cons_of_pos (by simpa using ha)]
      cases hf : (rest.filter (fun p => p.1 = k)).getLast? with
      | some p =>
        rw [getLast?_cons_of_ne_nil a (by
          intro hnil
          rw [hnil] at hf
          simp at hf)]
        rw [hf]
      | none =>
        have hnil : rest.filter (fun p => p.1 = k) = [] := by
          cases hc : rest.filter (fun p => p.1 = k) with
          | nil => rfl
          | cons x xs =>
            rw [hc] at hf
            simp [List.getLast?] at hf
        rw [hnil]
        subst ha
        exact pyDictUpsert_lookup_self d a.1 a.2
    · rw [List.filter_cons_of_neg (by simpa using ha)]
      cases hf : (rest.filter (fun p => p.1 = k)).getLast? with
      | some p => rfl
      | none =>
        rw [pyDictUpsert_lookup_ne d a.1 a.2 k (fun h => ha h.symm)]

theorem pyDictUpsert_length_le (d : List (String × String)) (k v : String) :
    (pyDictUpsert d k v).length ≤ d.length + 1 := by
  rw [pyDictUpsert]
  split <;> simp

theorem foldl_upsert_length :
    ∀ (ms : List (String × String)) (d : List (String × String)),
      (ms.foldl (fun d p => pyDictUpsert d p.1 p.2) d).length ≤ d.length + ms.length := by
  intro ms
  induction ms with
  | nil => intro d; simp
  | cons a rest ih =>
    intro d
    rw [List.foldl_cons]
    calc (rest.foldl (fun d p => pyDictUpsert d p.1 p.2) (pyDictUpsert d a.1 a.2)).length
        ≤ (pyDictUpsert d a.1 a.2).length + rest.length := ih _
      _ ≤ (d.length + 1) + rest.length := by
          have := pyDictUpsert_length_le d a.1 a.2
          omega
      _ = d.length + (a :: rest).length := by simp; omega

/-- C10 counterexample: on a match containing an extra comma, the key is the
second comma-separated field (`split(",")[1]`), not "the substring after the
first comma": the matched group `arn:aws:iam::a,b,arn:aws:iam::c` produces
the key `b`, and the claim's key `b,arn:aws:iam::c` is not in the returned
dictionary. -/
theorem c10_counterexample :
    findall_arns ">arn:aws:iam::a,b,arn:aws:iam::c<" =
      ["arn:aws:iam::a,b,arn:aws:iam::c"] ∧
    extract_arns ">arn:aws:iam::a,b,arn:aws:iam::c<" = .ok [("b", "arn:aws:iam::a")] ∧
    extract_arns ">arn:aws:iam::a,b,arn:aws:iam::c<" ≠
      .ok [("b,arn:aws:iam::c", "arn:aws:iam::a")] := by
  refine ⟨by decide, by decide, by decide⟩

/-- C10 (amended): for every assertion text in which the ARN-pair pattern
matches at least once, `extract_arns` returns a dictionary built by
splitting each matched comma-joined string: the second comma-separated field
(`split(",")[1]` — not everything after the first comma, see the
counterexample) is the role-ARN key and the first field (the substring
before the first comma) the provider-ARN value; when several matches share
the same key the later match silently overwrites the earlier one (the stored
value is the last such match's first field), so the number of returned
bindings can be strictly smaller than the number of pattern matches — as on
the concrete two-match text in the second conjunct. -/
theorem c10_extract_arns :
    (∀ saml, findall_arns saml ≠ [] →
      ∃ d, extract_arns saml = .ok d ∧
        (∀ m ∈ findall_arns saml,
          d.lookup ((pySplit m ",").getD 1 "") =
            (((findall_arns saml).filter
              (fun x => (pySplit x ",").getD 1 "" = (pySplit m ",").getD 1 "")).getLast?).map
              (fun x => (pySplit x ",").getD 0 "")) ∧
        d.length ≤ (findall_arns saml).length) ∧
    ((findall_arns
        ">arn:aws:iam::p1,arn:aws:iam::r<>arn:aws:iam::p2,arn:aws:iam::r<").length = 2 ∧
      ∃ d, extract_arns ">arn:aws:iam::p1,arn:aws:iam::r<>arn:aws:iam::p2,arn:aws:iam::r<" =
        .ok d ∧ d.length = 1) := by
  constructor
  · intro saml hne
    rw [extract_arns]
    simp only [if_neg hne]
    refine ⟨_, rfl, ?_, ?_⟩
    · intro m _
      set f : String → String × String :=
        fun i => ((pySplit i ",").getD 1 "", (pySplit i ",").getD 0 "") with hf
      set k : String := (pySplit m ",").getD 1 "" with hk
      have hfold : (findall_arns saml).foldl (fun d i =>
          pyDictUpsert d ((pySplit i ",").getD 1 "") ((pySplit i ",").getD 0 "")) [] =
          ((findall_arns saml).map f).foldl (fun d p => pyDictUpsert d p.1 p.2) [] := by
        rw [List.foldl_map]
      rw [hfold, foldl_upsert_lookup k ((findall_arns saml).map f) []]
      rw [List.filter_map f (findall_arns saml)]
      rw [List.getLast?_map]
      have hcomp : ((fun p : String × String => decide (p.1 = k)) ∘ f) =
          (fun x => decide ((pySplit x ",").getD 1 "" = k)) := rfl
      rw [hcomp]
      cases hl : ((findall_arns saml).filter
          (fun x => (pySplit x ",").getD 1 "" = k)).getLast? with
      | none => rfl
      | some x => rfl
    · calc ((findall_arns saml).foldl (fun d i =>
          pyDictUpsert d ((pySplit i ",").getD 1 "") ((pySplit i ",").getD 0 "")) []).length
          = (((findall_arns saml).map (fun i =>
            ((pySplit i ",").getD 1 "", (pySplit i ",").getD 0 ""))).foldl
              (fun d p => pyDictUpsert d p.1 p.2) []).length := by rw [List.foldl_map]
        _ ≤ ([] : List (String × String)).length + ((findall_arns saml).map (fun i =>
            ((pySplit i ",").getD 1 "", (pySplit i ",").getD 0 ""))).length :=
          foldl_upsert_length _ _
        _ = (findall_arns saml).length := by simp
  · exact ⟨by decide, ⟨[("arn:aws:iam::r", "arn:aws:iam::p2")], by decide, by decide⟩⟩

/-- Witness for C10 (amended) at a concrete assertion text with two matches
sharing the role-ARN key. -/
theorem c10_extract_arns_witness :
    ∃ d, extract_arns ">arn:aws:iam::p1,arn:aws:iam::r<>arn:aws:iam::p2,arn:aws:iam::r<" =
        .ok d ∧
      (∀ m ∈ findall_arns ">arn:aws:iam::p1,arn:aws:iam::r<>arn:aws:iam::p2,arn:aws:iam::r<",
        d.lookup ((pySplit m ",").getD 1 "") =
          (((findall_arns
            ">arn:aws:iam::p1,arn:aws:iam::r<>arn:aws:iam::p2,arn:aws:iam::r<").filter
            (fun x => (pySplit x ",").getD 1 "" = (pySplit m ",").getD 1 "")).getLast?).map
            (fun x => (pySplit x ",").getD 0 "")) ∧
      d.length ≤ (findall_arns
        ">arn:aws:iam::p1,arn:aws:iam::r<>arn:aws:iam::p2,arn:aws:iam::r<").length :=
  c10_extract_arns.1 ">arn:aws:iam::p1,arn:aws:iam::r<>arn:aws:iam::p2,arn:aws:iam::r<"
    (by decide)
